import Mathlib

/-!
Verification of the webcam viewer/recorder application.

This file shallowly embeds the components of the repository that the
specification's claims are about:

* `pyReplace` — Python's `str.replace` (all non-overlapping occurrences,
  scanned left to right), used by `RecorderManager.stop_recording` to derive
  the final output path from the intermediate video path.
* `AudioCaptureService` — the audio sink (`audio_capture/audio_capture_service.py`).
* `RecorderManager` together with a `World` record bundling the recorder, the
  audio service and the set of files on disk
  (`recorder_manager/recorder_manager.py`, the revision imported by
  `app_window.py`).
* A small interleaving model of `VideoCaptureService`'s preview loop and
  `stop_preview` (`video_capture/video_capture_service.py`).
* The pixel adjustment pipeline of `_apply_adjustments` and `_record_loop`,
  parameterised by the OpenCV primitives it calls.

Strings are modelled as `List Char`; the path separator is written `/`.
-/

namespace WebcamRec

/-- Paths and path fragments, modelled as lists of characters. -/
abbrev Str := List Char

/-- Characters of a string literal. -/
def strL (s : String) : Str := s.data

/-- Recursion core of `pyReplace`, structural in a fuel argument so that the
kernel can evaluate it; the fuel is always instantiated with the length of
the string being scanned. -/
def pyReplaceAux (pat rep : Str) : ℕ → Str → Str
  | _, [] => []
  | 0, s => s
  | n + 1, c :: s' =>
      if pat ≠ [] ∧ pat <+: (c :: s') then
        rep ++ pyReplaceAux pat rep n (List.drop pat.length (c :: s'))
      else
        c :: pyReplaceAux pat rep n s'

/-- Python's `str.replace pat rep` for a nonempty pattern: replace every
non-overlapping occurrence of `pat`, scanning left to right, and continue
scanning after the replacement text. -/
def pyReplace (pat rep s : Str) : Str := pyReplaceAux pat rep s.length s

/-- The fuel does not matter as long as it covers the string's length. -/
theorem pyReplaceAux_congr (pat rep : Str) :
    ∀ n m (s : Str), s.length ≤ n → s.length ≤ m →
      pyReplaceAux pat rep n s = pyReplaceAux pat rep m s := by
  intro n
  induction n with
  | zero =>
      intro m s hn hm
      have hnil : s = [] := List.eq_nil_of_length_eq_zero (Nat.le_zero.mp hn)
      subst hnil
      cases m <;> rfl
  | succ n ih =>
      intro m s hn hm
      match s with
      | [] => cases m <;> rfl
      | c :: s' =>
          cases m with
          | zero => exact absurd hm (by simp)
          | succ m' =>
              simp only [pyReplaceAux]
              simp only [List.length_cons] at hn hm
              by_cases hcond : pat ≠ [] ∧ pat <+: (c :: s')
              · rw [if_pos hcond, if_pos hcond]
                have hp : 0 < pat.length := List.length_pos.mpr hcond.1
                have hd : (List.drop pat.length (c :: s')).length ≤ n := by
                  simp only [List.length_drop, List.length_cons]
                  omega
                have hd' : (List.drop pat.length (c :: s')).length ≤ m' := by
                  simp only [List.length_drop, List.length_cons]
                  omega
                rw [ih m' _ hd hd']
              · rw [if_neg hcond, if_neg hcond]
                rw [ih m' s' (by omega) (by omega)]

theorem pyReplace_nil (pat rep : Str) : pyReplace pat rep [] = [] := rfl

theorem pyReplace_cons (pat rep : Str) (c : Char) (s : Str) :
    pyReplace pat rep (c :: s) =
      if pat ≠ [] ∧ pat <+: (c :: s) then
        rep ++ pyReplace pat rep (List.drop pat.length (c :: s))
      else
        c :: pyReplace pat rep s := by
  show pyReplaceAux pat rep (c :: s).length (c :: s) = _
  simp only [List.length_cons, pyReplaceAux]
  by_cases hcond : pat ≠ [] ∧ pat <+: (c :: s)
  · rw [if_pos hcond, if_pos hcond]
    have hp : 0 < pat.length := List.length_pos.mpr hcond.1
    rw [pyReplace, pyReplaceAux_congr pat rep s.length
      (List.drop pat.length (c :: s)).length (List.drop pat.length (c :: s))
      (by simp only [List.length_drop, List.length_cons]; omega) (le_refl _)]
  · rw [if_neg hcond, if_neg hcond]
    rfl

/-- If the head of the pattern differs from the head of the string, the scan
skips one character. -/
theorem pyReplace_skip {p : Char} {pat' : Str} (rep : Str) {c : Char} (s : Str)
    (hne : p ≠ c) :
    pyReplace (p :: pat') rep (c :: s) = c :: pyReplace (p :: pat') rep s := by
  rw [pyReplace_cons, if_neg]
  rintro ⟨-, t, ht⟩
  exact hne (by injection ht)

/-- A match at the current position is replaced and scanning resumes after it. -/
theorem pyReplace_hit {pat : Str} (rep t : Str) (hpat : pat ≠ []) :
    pyReplace pat rep (pat ++ t) = rep ++ pyReplace pat rep t := by
  match pat, hpat with
  | p :: pat', _ =>
    rw [List.cons_append, pyReplace_cons, if_pos]
    · simp
    · exact ⟨by simp, t, by simp⟩

/-- If the pattern's head character does not occur in `a`, scanning walks
straight through `a`. -/
theorem pyReplace_append_head {p : Char} {pat' : Str} (rep : Str) {a : Str}
    (b : Str) (hc : p ∉ a) :
    pyReplace (p :: pat') rep (a ++ b) = a ++ pyReplace (p :: pat') rep b := by
  induction a with
  | nil => simp
  | cons d a' ih =>
      have hpd : p ≠ d := fun h => hc (h ▸ List.mem_cons_self d a')
      have hc' : p ∉ a' := fun h => hc (List.mem_cons_of_mem d h)
      rw [List.cons_append, pyReplace_skip rep _ hpd, ih hc']
      simp

/-- If the pattern has no occurrence inside `a` and cannot straddle the
boundary (the first character of `b` does not occur in the pattern), scanning
walks straight through `a`. -/
theorem pyReplace_cross {pat : Str} (rep : Str) {a : Str} {c : Char} (b : Str)
    (hc : c ∉ pat) (hifx : ¬ pat <:+: a) :
    pyReplace pat rep (a ++ c :: b) = a ++ pyReplace pat rep (c :: b) := by
  induction a with
  | nil => simp
  | cons d a' ih =>
      have hpre : ¬ pat <+: (d :: (a' ++ c :: b)) := by
        intro hp
        obtain ⟨t, ht⟩ := hp
        have ht' : pat ++ t = (d :: a') ++ (c :: b) := by
          rw [List.cons_append]
          exact ht
        rcases le_or_lt pat.length (d :: a').length with hle | hlt
        · -- the match would lie inside `d :: a'`, hence inside `a`
          have h1 : pat = ((d :: a') ++ (c :: b)).take pat.length := by
            rw [← ht']
            exact (List.take_left' rfl).symm
          rw [List.take_append_of_le_length hle] at h1
          have hpfx : pat <+: (d :: a') := by
            rw [h1]
            exact List.take_prefix _ _
          obtain ⟨t', ht''⟩ := hpfx
          exact hifx ⟨[], t', by simpa using ht''⟩
        · -- the match would contain the boundary character `c`
          have hdrop : pat.drop (d :: a').length ++ t = c :: b := by
            have h3 := congrArg (List.drop (d :: a').length) ht'
            rwa [List.drop_append_of_le_length (le_of_lt hlt),
              List.drop_left] at h3
          obtain ⟨d₀, l₀, hdl⟩ : ∃ d₀ l₀, pat.drop (d :: a').length = d₀ :: l₀ := by
            cases hcase : pat.drop (d :: a').length with
            | nil =>
                have := congrArg List.length hcase
                simp only [List.length_drop, List.length_nil] at this
                omega
            | cons d₀ l₀ => exact ⟨d₀, l₀, rfl⟩
          rw [hdl] at hdrop
          have hd₀ : d₀ = c := by
            have := hdrop
            rw [List.cons_append] at this
            injection this
          have hmem : c ∈ pat := by
            refine List.drop_subset (d :: a').length pat ?_
            rw [hdl, hd₀]
            exact List.mem_cons_self c l₀
          exact hc hmem
      have hifx' : ¬ pat <:+: a' := by
        intro ⟨u, v, huv⟩
        exact hifx ⟨d :: u, v, by simp [huv]⟩
      rw [List.cons_append, pyReplace_cons, if_neg (by
            rintro ⟨-, h⟩; exact hpre h), ih hifx']
      simp

/-- Replacement by a pattern of the same length preserves the length. -/
theorem pyReplace_length_eq {pat rep : Str} (hlen : rep.length = pat.length) :
    ∀ s : Str, (pyReplace pat rep s).length = s.length := by
  have key : ∀ n (s : Str), s.length ≤ n →
      (pyReplace pat rep s).length = s.length := by
    intro n
    induction n with
    | zero =>
        intro s hs
        have : s = [] := List.eq_nil_of_length_eq_zero (Nat.le_zero.mp hs)
        simp [this, pyReplace_nil]
    | succ n ih =>
        intro s hs
        match s with
        | [] => simp [pyReplace_nil]
        | c :: s' =>
            rw [pyReplace_cons]
            split
            · rename_i hcond
              have hp : 0 < pat.length := List.length_pos.mpr hcond.1
              have hdrop : (List.drop pat.length (c :: s')).length =
                  s'.length + 1 - pat.length := by simp
              have hrec := ih (List.drop pat.length (c :: s')) (by
                rw [hdrop]
                simp only [List.length_cons] at hs
                omega)
              simp only [List.length_append, hrec, hdrop, hlen,
                List.length_cons]
              have hple : pat.length ≤ s'.length + 1 :=
                hcond.2.length_le.trans_eq (by simp)
              omega
            · have hrec := ih s' (by
                simp only [List.length_cons] at hs; omega)
              simp [hrec]
  intro s
  exact key s.length s (le_refl _)

/-- Replacement by a pattern at least as long never shrinks the string. -/
theorem pyReplace_length_le {pat rep : Str} (hlen : pat.length ≤ rep.length) :
    ∀ s : Str, s.length ≤ (pyReplace pat rep s).length := by
  have key : ∀ n (s : Str), s.length ≤ n →
      s.length ≤ (pyReplace pat rep s).length := by
    intro n
    induction n with
    | zero =>
        intro s hs
        have : s = [] := List.eq_nil_of_length_eq_zero (Nat.le_zero.mp hs)
        simp [this, pyReplace_nil]
    | succ n ih =>
        intro s hs
        match s with
        | [] => simp [pyReplace_nil]
        | c :: s' =>
            rw [pyReplace_cons]
            split
            · rename_i hcond
              have hp : 0 < pat.length := List.length_pos.mpr hcond.1
              have hple : pat.length ≤ s'.length + 1 :=
                hcond.2.length_le.trans_eq (by simp)
              have hrec := ih (List.drop pat.length (c :: s')) (by
                simp only [List.length_drop, List.length_cons]
                simp only [List.length_cons] at hs
                omega)
              simp only [List.length_append, List.length_cons]
              simp only [List.length_drop, List.length_cons] at hrec
              omega
            · have hrec := ih s' (by
                simp only [List.length_cons] at hs; omega)
              simp only [List.length_cons]
              omega
  intro s
  exact key s.length s (le_refl _)

/-- If the pattern occurs in the string and the replacement is longer, the
result grows by at least the difference. -/
theorem pyReplace_length_ge {pat rep : Str} (hpat : pat ≠ [])
    (hlen : pat.length ≤ rep.length) :
    ∀ s : Str, pat <:+: s →
      s.length + rep.length ≤ (pyReplace pat rep s).length + pat.length := by
  have key : ∀ n (s : Str), s.length ≤ n → pat <:+: s →
      s.length + rep.length ≤ (pyReplace pat rep s).length + pat.length := by
    intro n
    induction n with
    | zero =>
        intro s hs hocc
        have hnil : s = [] := List.eq_nil_of_length_eq_zero (Nat.le_zero.mp hs)
        subst hnil
        have : pat = [] := List.eq_nil_of_length_eq_zero (by
          have := hocc.length_le
          simpa using this)
        exact absurd this hpat
    | succ n ih =>
        intro s hs hocc
        match s with
        | [] =>
            have : pat = [] := List.eq_nil_of_length_eq_zero (by
              have := hocc.length_le
              simpa using this)
            exact absurd this hpat
        | c :: s' =>
            rw [pyReplace_cons]
            split
            · rename_i hcond
              have hp : 0 < pat.length := List.length_pos.mpr hcond.1
              have hple : pat.length ≤ s'.length + 1 :=
                hcond.2.length_le.trans_eq (by simp)
              have hrec := pyReplace_length_le hlen
                (List.drop pat.length (c :: s'))
              simp only [List.length_append, List.length_cons]
              simp only [List.length_drop, List.length_cons] at hrec
              omega
            · rename_i hcond
              have hnp : ¬ pat <+: (c :: s') := fun hp => hcond ⟨hpat, hp⟩
              obtain ⟨u, v, huv⟩ := hocc
              match u, huv with
              | [], huv => exact absurd ⟨v, by simpa using huv⟩ hnp
              | d :: u', huv =>
                  have hocc' : pat <:+: s' := ⟨u', v, by
                    rw [List.cons_append] at huv
                    injection huv⟩
                  have hrec := ih s' (by
                    simp only [List.length_cons] at hs; omega) hocc'
                  simp only [List.length_cons]
                  omega
  intro s hocc
  exact key s.length s (le_refl _) hocc

/-- A pattern whose head character does not occur in the string is never
matched. -/
theorem pyReplace_of_head_not_mem {p : Char} {pat' : Str} (rep : Str) {s : Str}
    (hc : p ∉ s) : pyReplace (p :: pat') rep s = s := by
  have h := @pyReplace_append_head p pat' rep s ([]) hc
  simpa [pyReplace_nil] using h

/-- `pyReplace_skip`, phrased so that the pattern need not be in
constructor form. -/
theorem pyReplace_skip' {pat : Str} (rep : Str) {c : Char} (s : Str)
    (hpat : pat ≠ []) (h : ∀ p ∈ pat.head?, p ≠ c) :
    pyReplace pat rep (c :: s) = c :: pyReplace pat rep s := by
  match pat, hpat with
  | p :: pat', _ => exact pyReplace_skip rep s (h p (by simp))

/-- `pyReplace_append_head`, phrased so that the pattern need not be in
constructor form. -/
theorem pyReplace_append_head' {pat : Str} (rep : Str) {a : Str} (b : Str)
    (hpat : pat ≠ []) (h : ∀ p ∈ pat.head?, p ∉ a) :
    pyReplace pat rep (a ++ b) = a ++ pyReplace pat rep b := by
  match pat, hpat with
  | p :: pat', _ => exact pyReplace_append_head rep b (h p (by simp))

/-- A pattern whose head character does not occur in the string leaves the
string unchanged. -/
theorem pyReplace_id' {pat : Str} (rep : Str) {s : Str}
    (hpat : pat ≠ []) (h : ∀ p ∈ pat.head?, p ∉ s) :
    pyReplace pat rep s = s := by
  match pat, hpat with
  | p :: pat', _ => exact pyReplace_of_head_not_mem rep (h p (by simp))

/-! ## Recording paths

`RecorderManager.start_recording` derives the two intermediate paths and the
final path from the output directory and a timestamp
(`recorder_manager/recorder_manager.py`, lines 106–110); `stop_recording`
re-derives the final path from the intermediate video path by textual
substitution (lines 202–207).  The path separator is written `/`. -/

/-- `str(Path(output_dir) / f"video_{timestamp}.mp4")`. -/
def videoFileOf (dir ts : Str) : Str := dir ++ strL "/video_" ++ ts ++ strL ".mp4"

/-- `str(Path(output_dir) / f"audio_{timestamp}.wav")`. -/
def audioFileOf (dir ts : Str) : Str := dir ++ strL "/audio_" ++ ts ++ strL ".wav"

/-- `str(Path(output_dir) / f"recording_{timestamp}.mkv")`. -/
def finalOutputOf (dir ts : Str) : Str := dir ++ strL "/recording_" ++ ts ++ strL ".mkv"

/-- `self._video_file.replace("video_", "recording_").replace(".mp4", ".mkv")`. -/
def stopFinalPath (vf : Str) : Str :=
  pyReplace (strL ".mp4") (strL ".mkv") (pyReplace (strL "video_") (strL "recording_") vf)

/-- The characters `strftime("%Y%m%d_%H%M%S")` can produce: digits and `_`. -/
def tsCharOK (c : Char) : Bool := c.isDigit || c == '_'

theorem videoFileOf_assoc (dir ts : Str) :
    videoFileOf dir ts = dir ++ '/' :: (strL "video_" ++ (ts ++ strL ".mp4")) := by
  have e1 : strL "/video_" = '/' :: strL "video_" := by decide
  rw [videoFileOf, e1]
  simp only [List.append_assoc, List.cons_append]

theorem videoFileOf_length (dir ts : Str) :
    (videoFileOf dir ts).length = dir.length + ts.length + 11 := by
  simp [videoFileOf, strL]
  omega

theorem audioFileOf_length (dir ts : Str) :
    (audioFileOf dir ts).length = dir.length + ts.length + 11 := by
  simp [audioFileOf, strL]
  omega

/-- `"video_"` occurs in the intermediate video path. -/
theorem video_isInfix_videoFileOf (dir ts : Str) :
    strL "video_" <:+: videoFileOf dir ts :=
  ⟨dir ++ ['/'], ts ++ strL ".mp4", by simp [videoFileOf, strL]⟩

/-- The substitution result is strictly longer than the intermediate video
path (each occurrence of `"video_"` grows by four characters). -/
theorem stopFinalPath_length_ge (dir ts : Str) :
    (videoFileOf dir ts).length + 4 ≤ (stopFinalPath (videoFileOf dir ts)).length := by
  have h1 := @pyReplace_length_ge (strL "video_") (strL "recording_")
    (by decide) (by decide) (videoFileOf dir ts) (video_isInfix_videoFileOf dir ts)
  have h2 := @pyReplace_length_eq (strL ".mp4") (strL ".mkv")
    (by decide) (pyReplace (strL "video_") (strL "recording_") (videoFileOf dir ts))
  simp only [stopFinalPath, h2]
  simp only [strL] at h1 ⊢
  simp at h1
  omega

theorem stopFinalPath_ne_videoFile (dir ts : Str) :
    stopFinalPath (videoFileOf dir ts) ≠ videoFileOf dir ts := by
  intro h
  have := stopFinalPath_length_ge dir ts
  rw [h] at this
  omega

theorem stopFinalPath_ne_audioFile (dir ts : Str) :
    stopFinalPath (videoFileOf dir ts) ≠ audioFileOf dir ts := by
  intro h
  have h1 := stopFinalPath_length_ge dir ts
  have h2 := videoFileOf_length dir ts
  have h3 := audioFileOf_length dir ts
  rw [h, h3] at h1
  omega

/-- On a directory containing neither `"video_"` nor `".mp4"`, the textual
substitution in `stop_recording` reproduces exactly the final path that
`start_recording` built. -/
theorem stopFinalPath_clean (dir ts : Str)
    (hts : ∀ c ∈ ts, tsCharOK c = true)
    (h1 : ¬ strL "video_" <:+: dir)
    (h2 : ¬ strL ".mp4" <:+: dir) :
    stopFinalPath (videoFileOf dir ts) = finalOutputOf dir ts := by
  have hvts : 'v' ∉ ts := by
    intro hmem
    have := hts 'v' hmem
    simp [tsCharOK] at this
  have hdts : '.' ∉ ts := by
    intro hmem
    have := hts '.' hmem
    simp [tsCharOK] at this
  -- Stage 1: replace "video_" by "recording_".
  have s1 : pyReplace (strL "video_") (strL "recording_") (videoFileOf dir ts) =
      dir ++ '/' :: (strL "recording_" ++ (ts ++ strL ".mp4")) := by
    rw [videoFileOf_assoc]
    rw [pyReplace_cross (strL "recording_") _ (by decide) h1]
    rw [pyReplace_skip' (strL "recording_") _ (by decide) (by decide)]
    rw [pyReplace_hit _ _ (by decide)]
    have hnm : ∀ p ∈ (strL "video_").head?, p ∉ ts ++ strL ".mp4" := by
      intro p hp hmem
      have hpv : p = 'v' := by
        simp [strL] at hp
        exact hp.symm
      subst hpv
      rcases List.mem_append.mp hmem with h | h
      · exact hvts h
      · exact absurd h (by decide)
    rw [pyReplace_id' _ (by decide) hnm]
  -- Stage 2: replace ".mp4" by ".mkv".
  rw [stopFinalPath, s1]
  rw [pyReplace_cross (strL ".mkv") _ (by decide) h2]
  rw [pyReplace_skip' (strL ".mkv") _ (by decide) (by decide)]
  have hre : strL "recording_" ++ (ts ++ strL ".mp4") =
      (strL "recording_" ++ ts) ++ strL ".mp4" := by
    rw [List.append_assoc]
  rw [hre]
  have hnm2 : ∀ p ∈ (strL ".mp4").head?, p ∉ strL "recording_" ++ ts := by
    intro p hp hmem
    have hpd : p = '.' := by
      simp [strL] at hp
      exact hp.symm
    subst hpd
    rcases List.mem_append.mp hmem with h | h
    · exact absurd h (by decide)
    · exact hdts h
  rw [pyReplace_append_head' _ _ (by decide) hnm2]
  have hfin : pyReplace (strL ".mp4") (strL ".mkv") (strL ".mp4") = strL ".mkv" := by
    have h := @pyReplace_hit (strL ".mp4") (strL ".mkv") [] (by decide)
    simpa [pyReplace_nil] using h
  rw [hfin]
  have e2 : strL "/recording_" = '/' :: strL "recording_" := by decide
  rw [finalOutputOf, e2]
  simp only [List.append_assoc, List.cons_append]

/-! ## AudioCaptureService (`audio_capture/audio_capture_service.py`)

Samples are modelled as rationals (the float32 values delivered by the
sounddevice callback); a captured block is a list of samples.  The service is
instantiated by `app_window.py` with its defaults, in particular
`dtype="float32"`, so the float-to-int16 conversion branch of
`stop_recording` always applies.  The WAV file written on stop is modelled
structurally: the header fields passed to the `wave` module plus the
converted samples. -/

/-- C-style truncation toward zero of a rational, as performed by Python's
`int(...)` and by a NumPy cast from a float type to an integer type. -/
def pyTrunc (q : ℚ) : ℤ := Int.tdiv q.num q.den

/-- `np.int16(x * 32767)` applied to one float32 sample `x`. -/
def f32ToI16 (q : ℚ) : ℤ := pyTrunc (q * 32767)

/-- The WAV file written by `AudioCaptureService.stop_recording`:
`setnchannels`, `setsampwidth(2)`, `setframerate`, `writeframes`. -/
structure WavFile where
  nchannels : ℕ
  sampwidth : ℕ
  framerate : ℕ
  samples : List ℤ
deriving DecidableEq, Repr

/-- `RuntimeError("Audio already recording.")`. -/
inductive AudioError where
  | alreadyRecording
deriving DecidableEq, Repr

structure AudioCaptureService where
  channels : ℕ
  samplerate : ℕ
  recording : Bool
  filePath : Option Str
  audioFrames : List (List ℚ)
deriving DecidableEq, Repr

/-- `AudioCaptureService.__init__` with the defaults used by `app_window.py`
(`channels=2`, `samplerate=44100`, `dtype="float32"`). -/
def AudioCaptureService.init : AudioCaptureService :=
  ⟨2, 44100, false, none, []⟩

/-- `AudioCaptureService.start_recording(file_path)`: raises if already
recording, otherwise records the target path, clears the accumulated frames
and starts the capture thread. -/
def AudioCaptureService.start_recording (st : AudioCaptureService)
    (filePath : Str) : Except AudioError AudioCaptureService :=
  if st.recording then .error .alreadyRecording
  else .ok { st with filePath := some filePath, audioFrames := [], recording := true }

/-- The sounddevice input-stream callback: appends a copy of the delivered
block to the accumulation list while recording. -/
def AudioCaptureService.callback (st : AudioCaptureService)
    (indata : List ℚ) : AudioCaptureService :=
  if st.recording then { st with audioFrames := st.audioFrames ++ [indata] } else st

/-- `AudioCaptureService.stop_recording()`: no-op when not recording;
otherwise halts the stream (the capture loop exits and the thread is joined),
and, when a target path is set and at least one block was captured,
concatenates the blocks in arrival order, converts float32 samples to 16-bit
integers and writes header plus samples to the target path.  Returns the
written file, if any, alongside the successor state. -/
def AudioCaptureService.stop_recording (st : AudioCaptureService) :
    AudioCaptureService × Option (Str × WavFile) :=
  if st.recording = false then (st, none)
  else
    let st1 := { st with recording := false }
    let out : Option (Str × WavFile) :=
      match st1.filePath, st1.audioFrames with
      | some p, b :: bs =>
          let audioData := (b :: bs).flatten
          some (p, ⟨st1.channels, 2, st1.samplerate, audioData.map f32ToI16⟩)
      | _, _ => none
    ({ st1 with audioFrames := [], filePath := none }, out)

/-! ## RecorderManager (`recorder_manager/recorder_manager.py`)

This is the revision imported by `app_window.py`.  The recorder is composed
with the audio service and a file system (the list of paths that exist) into
a `World`.  Subprocess behaviour is an oracle: the exit codes the encoder and
muxer processes will report are inputs, the muxer creates its output file
exactly when it exits 0, and the encoder creates its output file when
spawned.  `stop_recording` additionally returns the trace of its interactions
with the encoder and muxer subprocesses. -/

/-- The `subprocess.Popen` handle for the encoder. -/
structure EncoderProc where
  stdinOpen : Bool
deriving DecidableEq, Repr

structure RecorderManager where
  brightness : ℚ
  contrast : ℚ
  saturation : ℚ
  recording : Bool
  ffmpegProc : Option EncoderProc
  videoFile : Option Str
  audioFile : Option Str
deriving DecidableEq, Repr

/-- `RecorderManager.__init__`. -/
def RecorderManager.init : RecorderManager :=
  ⟨1, 1, 1, false, none, none, none⟩

/-- Trace of subprocess interactions performed by `stop_recording`. -/
inductive Event where
  | closeStdin
  | waitEncoder (exitCode : ℤ)
  | runMerge (videoFile audioFile finalOutput : Str) (exitCode : ℤ)
  | unlink (path : Str)
deriving DecidableEq, Repr

/-- `RuntimeError` exceptions raised during `start_recording`. -/
inductive RecError where
  | alreadyRecording
  | audioAlreadyRecording
deriving DecidableEq, Repr

/-- `subprocess.CalledProcessError` raised by
`subprocess.run(merge_cmd, check=True)`; the specification calls this
`MergeError`. -/
inductive MergeError where
  | mergeFailed (exitCode : ℤ)
deriving DecidableEq, Repr

structure World where
  rm : RecorderManager
  audio : AudioCaptureService
  fs : List Str
deriving DecidableEq, Repr

/-- The application's initial world: fresh recorder, fresh audio service,
no session files on disk. -/
def initWorld : World := ⟨RecorderManager.init, AudioCaptureService.init, []⟩

/-- `Path(p).unlink(missing_ok=True)`. -/
def unlinkFS (p : Str) (fs : List Str) : List Str :=
  fs.filter (fun q => decide (q ≠ p))

/-- `RecorderManager.start_recording(output_dir)`.  The timestamp is an
explicit argument.  Spawning the encoder creates its output file and opens
its stdin pipe; the frame-pump thread started at the end feeds frames to the
already-spawned encoder and touches none of the fields modelled here. -/
def start_recording (w : World) (outputDir ts : Str) :
    Except RecError Str × World :=
  if w.rm.recording then (.error .alreadyRecording, w)
  else
    let videoFile := videoFileOf outputDir ts
    let audioFile := audioFileOf outputDir ts
    let finalOutput := finalOutputOf outputDir ts
    let rm1 := { w.rm with
      videoFile := some videoFile
      audioFile := some audioFile
      ffmpegProc := some ⟨true⟩ }
    let fs1 := videoFile :: w.fs
    match w.audio.start_recording audioFile with
    | .error _ => (.error .audioAlreadyRecording, { w with rm := rm1, fs := fs1 })
    | .ok a1 =>
        (.ok finalOutput,
          { rm := { rm1 with recording := true }, audio := a1, fs := fs1 })

/-- `RecorderManager.stop_recording()`.  `encExit` and `muxExit` are the exit
codes the encoder and muxer subprocesses report.  The encoder's exit code is
the value `self._ffmpeg_proc.wait()` returns; the code discards it.  On muxer
exit 0 the final file is created and both intermediates are unlinked; on a
nonzero muxer exit `check=True` raises before any unlink. -/
def stop_recording (w : World) (encExit muxExit : ℤ) :
    Except MergeError (Option Str) × World × List Event :=
  if w.rm.recording = false then (.ok none, w, [])
  else
    let rm1 := { w.rm with recording := false }
    let (a1, wavOut) := w.audio.stop_recording
    let fs1 := match wavOut with
      | some (p, _) => p :: w.fs
      | none => w.fs
    let (rm2, evs) :=
      match rm1.ffmpegProc with
      | some proc =>
          ({ rm1 with ffmpegProc := none },
            (if proc.stdinOpen then [Event.closeStdin] else []) ++
              [Event.waitEncoder encExit])
      | none => (rm1, [])
    match rm2.videoFile, rm2.audioFile with
    | some vf, some af =>
        let finalOutput := stopFinalPath vf
        let evs2 := evs ++ [Event.runMerge vf af finalOutput muxExit]
        if muxExit = 0 then
          (.ok (some finalOutput),
            { rm := { rm2 with videoFile := none, audioFile := none },
              audio := a1,
              fs := unlinkFS af (unlinkFS vf (finalOutput :: fs1)) },
            evs2 ++ [Event.unlink vf, Event.unlink af])
        else
          (.error (.mergeFailed muxExit),
            { rm := rm2, audio := a1, fs := fs1 }, evs2)
    | _, _ => (.ok none, { rm := rm2, audio := a1, fs := fs1 }, evs)

/-- The remainder of `stop_recording` after its first mutating statement
`self.recording = False` (lines 194–236): stopping the audio sink, closing
and waiting on the encoder, merging, and unlinking.  This is the finalizing
phase; it operates on a world whose recording flag is already cleared. -/
def stop_finalize (w : World) (encExit muxExit : ℤ) :
    Except MergeError (Option Str) × World × List Event :=
  let (a1, wavOut) := w.audio.stop_recording
  let fs1 := match wavOut with
    | some (p, _) => p :: w.fs
    | none => w.fs
  let (rm2, evs) :=
    match w.rm.ffmpegProc with
    | some proc =>
        ({ w.rm with ffmpegProc := none },
          (if proc.stdinOpen then [Event.closeStdin] else []) ++
            [Event.waitEncoder encExit])
    | none => (w.rm, [])
  match rm2.videoFile, rm2.audioFile with
  | some vf, some af =>
      let finalOutput := stopFinalPath vf
      let evs2 := evs ++ [Event.runMerge vf af finalOutput muxExit]
      if muxExit = 0 then
        (.ok (some finalOutput),
          { rm := { rm2 with videoFile := none, audioFile := none },
            audio := a1,
            fs := unlinkFS af (unlinkFS vf (finalOutput :: fs1)) },
          evs2 ++ [Event.unlink vf, Event.unlink af])
      else
        (.error (.mergeFailed muxExit),
          { rm := rm2, audio := a1, fs := fs1 }, evs2)
  | _, _ => (.ok none, { rm := rm2, audio := a1, fs := fs1 }, evs)

/-- On a recording world, `stop_recording` factors through the state whose
recording flag has just been cleared: that intermediate state is the
finalizing window another thread can observe while `stop_recording` is still
running. -/
theorem stop_recording_decomp (w : World) (h : w.rm.recording = true)
    (encExit muxExit : ℤ) :
    stop_recording w encExit muxExit =
      stop_finalize { w with rm := { w.rm with recording := false } }
        encExit muxExit := by
  rw [stop_recording, if_neg (by simp [h])]
  rfl

/-- Blocks delivered by the sounddevice callback between start and stop. -/
def feedAudio (w : World) (blocks : List (List ℚ)) : World :=
  { w with audio := blocks.foldl AudioCaptureService.callback w.audio }

/-! ### Evaluation lemmas for the recorder model -/

theorem unlinkFS_nil (p : Str) : unlinkFS p [] = [] := rfl

theorem unlinkFS_cons_self (p : Str) (fs : List Str) :
    unlinkFS p (p :: fs) = unlinkFS p fs := by
  simp [unlinkFS]

theorem unlinkFS_cons_ne {a p : Str} (h : a ≠ p) (fs : List Str) :
    unlinkFS p (a :: fs) = a :: unlinkFS p fs := by
  simp [unlinkFS, List.filter_cons, h]

theorem audioFileOf_ne_videoFileOf (dir ts : Str) :
    audioFileOf dir ts ≠ videoFileOf dir ts := by
  intro h
  rw [audioFileOf, videoFileOf] at h
  have hlen : ((dir ++ strL "/audio_") ++ ts).length =
      ((dir ++ strL "/video_") ++ ts).length := by
    have e1 : (strL "/audio_").length = 7 := by decide
    have e2 : (strL "/video_").length = 7 := by decide
    simp [List.length_append, e1, e2]
  have h1 := List.append_inj h hlen
  have h2 := List.append_inj h1.1 (by
    have e1 : (strL "/audio_").length = 7 := by decide
    have e2 : (strL "/video_").length = 7 := by decide
    simp [List.length_append, e1, e2])
  have h3 := List.append_cancel_left h2.1
  have : strL "/audio_" ≠ strL "/video_" := by decide
  exact this h3

/-- The world after `start_recording` succeeds from the initial world. -/
def startedWorld (dir ts : Str) : World :=
  { rm := { brightness := 1, contrast := 1, saturation := 1, recording := true,
            ffmpegProc := some ⟨true⟩,
            videoFile := some (videoFileOf dir ts),
            audioFile := some (audioFileOf dir ts) },
    audio := { channels := 2, samplerate := 44100, recording := true,
               filePath := some (audioFileOf dir ts), audioFrames := [] },
    fs := [videoFileOf dir ts] }

theorem start_recording_initWorld (dir ts : Str) :
    start_recording initWorld dir ts =
      (.ok (finalOutputOf dir ts), startedWorld dir ts) := rfl

theorem foldl_callback (blocks : List (List ℚ)) :
    ∀ st : AudioCaptureService, st.recording = true →
      blocks.foldl AudioCaptureService.callback st =
        { st with audioFrames := st.audioFrames ++ blocks } := by
  induction blocks with
  | nil =>
      intro st h
      simp
  | cons b bs ih =>
      intro st h
      rw [List.foldl_cons]
      have hc : AudioCaptureService.callback st b =
          { st with audioFrames := st.audioFrames ++ [b] } := by
        simp [AudioCaptureService.callback, h]
      rw [hc, ih _ (by simp [h])]
      simp

theorem feedAudio_startedWorld (dir ts : Str) (blocks : List (List ℚ)) :
    feedAudio (startedWorld dir ts) blocks =
      { startedWorld dir ts with
        audio := { channels := 2, samplerate := 44100, recording := true,
                   filePath := some (audioFileOf dir ts),
                   audioFrames := blocks } } := by
  rw [feedAudio, foldl_callback blocks _ rfl]
  rfl

/-- Full evaluation of a record→stop cycle started from the initial world:
the result, the successor world and the subprocess trace, for arbitrary
captured audio blocks and arbitrary encoder and muxer exit codes. -/
theorem stop_recording_cycle (dir ts : Str) (blocks : List (List ℚ))
    (enc mux : ℤ) :
    stop_recording (feedAudio (startedWorld dir ts) blocks) enc mux =
      ((if mux = 0 then .ok (some (stopFinalPath (videoFileOf dir ts)))
        else .error (.mergeFailed mux)),
       { rm := { RecorderManager.init with
                 videoFile := if mux = 0 then none else some (videoFileOf dir ts),
                 audioFile := if mux = 0 then none else some (audioFileOf dir ts) },
         audio := AudioCaptureService.init,
         fs := if mux = 0 then [stopFinalPath (videoFileOf dir ts)]
               else if blocks = [] then [videoFileOf dir ts]
               else [audioFileOf dir ts, videoFileOf dir ts] },
       [Event.closeStdin, Event.waitEncoder enc,
        Event.runMerge (videoFileOf dir ts) (audioFileOf dir ts)
          (stopFinalPath (videoFileOf dir ts)) mux] ++
         (if mux = 0 then
            [Event.unlink (videoFileOf dir ts), Event.unlink (audioFileOf dir ts)]
          else [])) := by
  rw [feedAudio_startedWorld]
  have hfs0 : unlinkFS (audioFileOf dir ts)
      (unlinkFS (videoFileOf dir ts)
        (stopFinalPath (videoFileOf dir ts) :: [videoFileOf dir ts])) =
      [stopFinalPath (videoFileOf dir ts)] := by
    rw [unlinkFS_cons_ne (stopFinalPath_ne_videoFile dir ts),
      unlinkFS_cons_self, unlinkFS_nil,
      unlinkFS_cons_ne (stopFinalPath_ne_audioFile dir ts), unlinkFS_nil]
  have hfs1 : unlinkFS (audioFileOf dir ts)
      (unlinkFS (videoFileOf dir ts)
        (stopFinalPath (videoFileOf dir ts) ::
          audioFileOf dir ts :: [videoFileOf dir ts])) =
      [stopFinalPath (videoFileOf dir ts)] := by
    rw [unlinkFS_cons_ne (stopFinalPath_ne_videoFile dir ts),
      unlinkFS_cons_ne (audioFileOf_ne_videoFileOf dir ts),
      unlinkFS_cons_self, unlinkFS_nil,
      unlinkFS_cons_ne (stopFinalPath_ne_audioFile dir ts),
      unlinkFS_cons_self, unlinkFS_nil]
  rcases Decidable.em (mux = 0) with hm | hm
  · subst hm
    cases blocks with
    | nil =>
        simp [stop_recording, AudioCaptureService.stop_recording, startedWorld,
          hfs0, RecorderManager.init, AudioCaptureService.init]
    | cons b bs =>
        simp [stop_recording, AudioCaptureService.stop_recording, startedWorld,
          hfs1, RecorderManager.init, AudioCaptureService.init]
  · cases blocks with
    | nil =>
        simp [stop_recording, AudioCaptureService.stop_recording, startedWorld,
          hm, RecorderManager.init, AudioCaptureService.init]
    | cons b bs =>
        simp [stop_recording, AudioCaptureService.stop_recording, startedWorld,
          hm, RecorderManager.init, AudioCaptureService.init]

/-! ## Claim theorems for the recorder state machine -/

/-- C1: a completed record→stop cycle in which the encoder and the muxer exit
with code 0 deletes both intermediate files, leaves exactly one final output
file on disk, and `stop_recording` returns the path of that file. -/
theorem claim_cycle_success_cleanup (dir ts : Str) (blocks : List (List ℚ)) :
    ∃ w2 trace,
      start_recording initWorld dir ts =
        (.ok (finalOutputOf dir ts), startedWorld dir ts) ∧
      stop_recording (feedAudio (startedWorld dir ts) blocks) 0 0 =
        (.ok (some (stopFinalPath (videoFileOf dir ts))), w2, trace) ∧
      w2.fs = [stopFinalPath (videoFileOf dir ts)] ∧
      videoFileOf dir ts ∉ w2.fs ∧
      audioFileOf dir ts ∉ w2.fs := by
  have hcyc := stop_recording_cycle dir ts blocks 0 0
  simp at hcyc
  refine ⟨_, _, start_recording_initWorld dir ts, hcyc, rfl, ?_, ?_⟩
  · intro hmem
    rw [List.mem_singleton] at hmem
    exact stopFinalPath_ne_videoFile dir ts hmem.symm
  · intro hmem
    rw [List.mem_singleton] at hmem
    exact stopFinalPath_ne_audioFile dir ts hmem.symm

/-- C2: when the muxer exits with a nonzero code, `stop_recording` raises
`MergeError` and both intermediate files still exist afterwards — deletion
happens only after a confirmed successful merge. -/
theorem claim_merge_failure_preserves_intermediates (dir ts : Str)
    (blocks : List (List ℚ)) (enc mux : ℤ) (hmux : mux ≠ 0) (hb : blocks ≠ []) :
    ∃ w2 trace,
      start_recording initWorld dir ts =
        (.ok (finalOutputOf dir ts), startedWorld dir ts) ∧
      stop_recording (feedAudio (startedWorld dir ts) blocks) enc mux =
        (.error (.mergeFailed mux), w2, trace) ∧
      videoFileOf dir ts ∈ w2.fs ∧
      audioFileOf dir ts ∈ w2.fs := by
  have hcyc := stop_recording_cycle dir ts blocks enc mux
  simp only [if_neg hmux, if_neg hb] at hcyc
  exact ⟨_, _, start_recording_initWorld dir ts, hcyc, by simp, by simp⟩

theorem claim_merge_failure_preserves_intermediates_witness :
    ∃ w2 trace,
      start_recording initWorld (strL "out") (strL "20240101_120000") =
        (.ok (finalOutputOf (strL "out") (strL "20240101_120000")),
          startedWorld (strL "out") (strL "20240101_120000")) ∧
      stop_recording
          (feedAudio (startedWorld (strL "out") (strL "20240101_120000")) [[1]])
          0 1 =
        (.error (.mergeFailed 1), w2, trace) ∧
      videoFileOf (strL "out") (strL "20240101_120000") ∈ w2.fs ∧
      audioFileOf (strL "out") (strL "20240101_120000") ∈ w2.fs :=
  claim_merge_failure_preserves_intermediates (strL "out")
    (strL "20240101_120000") [[1]] 0 1 (by decide) (by simp)

/-- The finalizing window of a concrete cycle (`out`/`t`, one audio block):
the state reached inside `stop_recording` right after its first statement
cleared the recording flag — the audio sink is still recording, the encoder
handle, intermediate paths and files are still those of the session. -/
def finalizingWorld : World :=
  { rm := { brightness := 1, contrast := 1, saturation := 1, recording := false,
            ffmpegProc := some ⟨true⟩,
            videoFile := some (videoFileOf (strL "out") (strL "t")),
            audioFile := some (audioFileOf (strL "out") (strL "t")) },
    audio := { channels := 2, samplerate := 44100, recording := true,
               filePath := some (audioFileOf (strL "out") (strL "t")),
               audioFrames := [[1]] },
    fs := [videoFileOf (strL "out") (strL "t")] }

/-- C3, counterexample: `stop_recording` of a genuine recording cycle factors
through `finalizingWorld` — a state of the finalizing phase — yet
`start_recording` called at that state does not raise
`RuntimeError("Already recording.")` (the guard reads the already-cleared
flag; what is raised is the audio service's "Audio already recording."), and
it does not leave the session untouched: the intermediate paths and the
encoder handle are overwritten.  This refutes the claim for the finalizing
phase it explicitly names. -/
theorem claim_start_while_finalizing_cx :
    stop_recording (feedAudio (startedWorld (strL "out") (strL "t")) [[1]]) 0 0 =
      stop_finalize finalizingWorld 0 0 ∧
    (start_recording finalizingWorld (strL "out") (strL "u")).1 ≠
      Except.error RecError.alreadyRecording ∧
    (start_recording finalizingWorld (strL "out") (strL "u")).2 ≠
      finalizingWorld := by
  refine ⟨stop_recording_decomp _ rfl 0 0, ?_, ?_⟩
  · have hev : (start_recording finalizingWorld (strL "out") (strL "u")).1 =
        Except.error RecError.audioAlreadyRecording := rfl
    rw [hev]
    simp
  · decide

/-- C3, amended: `start_recording` called while the recording flag is set —
the Recording phase, up to the moment `stop_recording` begins — raises
`RuntimeError("Already recording.")` before touching anything: the returned
world is the input world, so the running session is unchanged.  The
finalizing phase is not covered by the guard, since `stop_recording` clears
the flag as its first statement. -/
theorem claim_start_while_recording_fails_unchanged (w : World) (dir ts : Str)
    (h : w.rm.recording = true) :
    start_recording w dir ts = (.error .alreadyRecording, w) := by
  simp [start_recording, h]

theorem claim_start_while_recording_fails_unchanged_witness :
    start_recording (startedWorld (strL "out") (strL "t")) (strL "d") (strL "u") =
      (.error .alreadyRecording, startedWorld (strL "out") (strL "t")) :=
  claim_start_while_recording_fails_unchanged
    (startedWorld (strL "out") (strL "t")) (strL "d") (strL "u") rfl

/-- C9: `stop_recording` while no recording is active is a no-op: it returns
no path and the world — recording flag, process handle, intermediate paths,
adjustment values, files — is unchanged; no subprocess is touched. -/
theorem claim_stop_idle_noop (w : World) (enc mux : ℤ)
    (h : w.rm.recording = false) :
    stop_recording w enc mux = (.ok none, w, []) := by
  simp [stop_recording, h]

theorem claim_stop_idle_noop_witness :
    stop_recording initWorld 5 7 = (.ok none, initWorld, []) :=
  claim_stop_idle_noop initWorld 5 7 rfl

/-- C6, counterexample: a cycle whose encoder exits with code 1 is not
reported as an error — `stop_recording` returns success, although the trace
shows the encoder was waited on and reported exit code 1.  The claim that
"every nonzero encoder exit code is reported to the caller as an
EncodeProcessError" is false of the code. -/
theorem claim_encoder_exit_surfaced_cx :
    (stop_recording
        (feedAudio (startedWorld (strL "out") (strL "20240101_120000")) [[1]])
        1 0).1 =
      .ok (some (stopFinalPath (videoFileOf (strL "out") (strL "20240101_120000")))) ∧
    Event.waitEncoder 1 ∈
      (stop_recording
        (feedAudio (startedWorld (strL "out") (strL "20240101_120000")) [[1]])
        1 0).2.2 := by
  rw [stop_recording_cycle]
  constructor
  · simp
  · simp

/-- C6, amended: `stop_recording` closes the encoder's stdin and waits for
the process, but the exit code returned by `wait()` is discarded: the result
and the successor world do not depend on the encoder's exit code, and no
error is raised for a nonzero encoder exit. -/
theorem claim_encoder_exit_waited_ignored (dir ts : Str)
    (blocks : List (List ℚ)) (e e' mux : ℤ) :
    ((stop_recording (feedAudio (startedWorld dir ts) blocks) e mux).2.2.take 2 =
        [Event.closeStdin, Event.waitEncoder e]) ∧
    (stop_recording (feedAudio (startedWorld dir ts) blocks) e mux).1 =
      (stop_recording (feedAudio (startedWorld dir ts) blocks) e' mux).1 ∧
    (stop_recording (feedAudio (startedWorld dir ts) blocks) e mux).2.1 =
      (stop_recording (feedAudio (startedWorld dir ts) blocks) e' mux).2.1 := by
  rw [stop_recording_cycle, stop_recording_cycle]
  exact ⟨by simp, rfl, rfl⟩

/-- C10: the final path is derived in `stop_recording` by textual
substitution on the intermediate video path; on an output directory
containing neither `"video_"` nor `".mp4"` it coincides with the path
`start_recording` returned, and otherwise the two paths can differ (here:
the directory `"video_dir"`). -/
theorem claim_final_path_matches_start (dir ts : Str)
    (hts : ∀ c ∈ ts, tsCharOK c = true)
    (h1 : ¬ strL "video_" <:+: dir)
    (h2 : ¬ strL ".mp4" <:+: dir) :
    (start_recording initWorld dir ts =
        (.ok (finalOutputOf dir ts), startedWorld dir ts) ∧
      (stop_recording (feedAudio (startedWorld dir ts) []) 0 0).1 =
        .ok (some (finalOutputOf dir ts))) ∧
    (stop_recording
        (feedAudio (startedWorld (strL "video_dir") (strL "20240101_120000")) [])
        0 0).1 ≠
      .ok (some (finalOutputOf (strL "video_dir") (strL "20240101_120000"))) := by
  constructor
  · refine ⟨start_recording_initWorld dir ts, ?_⟩
    rw [stop_recording_cycle]
    simp [stopFinalPath_clean dir ts hts h1 h2]
  · rw [stop_recording_cycle]
    simp only [show ((0:ℤ) = 0) = True from by simp, if_true]
    intro hcontra
    have heq : stopFinalPath (videoFileOf (strL "video_dir") (strL "20240101_120000")) =
        finalOutputOf (strL "video_dir") (strL "20240101_120000") := by
      injection hcontra with h
      injection h
    exact absurd heq (by decide)

theorem claim_final_path_matches_start_witness :
    (start_recording initWorld (strL "out") (strL "20240101_120000") =
        (.ok (finalOutputOf (strL "out") (strL "20240101_120000")),
          startedWorld (strL "out") (strL "20240101_120000")) ∧
      (stop_recording
          (feedAudio (startedWorld (strL "out") (strL "20240101_120000")) [])
          0 0).1 =
        .ok (some (finalOutputOf (strL "out") (strL "20240101_120000")))) ∧
    (stop_recording
        (feedAudio (startedWorld (strL "video_dir") (strL "20240101_120000")) [])
        0 0).1 ≠
      .ok (some (finalOutputOf (strL "video_dir") (strL "20240101_120000"))) :=
  claim_final_path_matches_start (strL "out") (strL "20240101_120000")
    (by decide) (by decide) (by decide)

/-! ## Claim theorems for the audio sink -/

/-- C8, counterexample: a session in which no block was captured writes no
file at all on stop — refuting the claim that every audio session's stop
writes a WAV header plus samples to the target path. -/
theorem claim_audio_stop_writes_wav_cx :
    ∃ a1, AudioCaptureService.init.start_recording (strL "out/audio_t.wav") =
        .ok a1 ∧
      a1.stop_recording =
        ({ AudioCaptureService.init with recording := false }, none) :=
  ⟨_, rfl, rfl⟩

/-- C8, amended: for every session in which at least one block was captured,
`stop_recording` halts the stream, concatenates the blocks in arrival order,
converts the float32 samples to 16-bit integers, and writes nchannels,
a 2-byte sample width, the sample rate and the converted samples to the path
given at start. -/
theorem claim_audio_stop_writes_wav (st : AudioCaptureService) (p : Str)
    (blocks : List (List ℚ)) (h0 : st.recording = false) (hb : blocks ≠ []) :
    ∃ a1, st.start_recording p = .ok a1 ∧
      (blocks.foldl AudioCaptureService.callback a1).stop_recording =
        ({ st with recording := false, audioFrames := [], filePath := none },
         some (p, ⟨st.channels, 2, st.samplerate, blocks.flatten.map f32ToI16⟩)) := by
  have hstart : st.start_recording p =
      .ok { st with filePath := some p, audioFrames := [], recording := true } := by
    simp [AudioCaptureService.start_recording, h0]
  refine ⟨_, hstart, ?_⟩
  rw [foldl_callback blocks _ (by simp)]
  cases blocks with
  | nil => exact absurd rfl hb
  | cons b bs => simp [AudioCaptureService.stop_recording]

theorem claim_audio_stop_writes_wav_witness :
    ∃ a1, AudioCaptureService.init.start_recording (strL "a.wav") = .ok a1 ∧
      ([[1/2, -1/2]].foldl AudioCaptureService.callback a1).stop_recording =
        (AudioCaptureService.init,
         some (strL "a.wav",
           ⟨2, 2, 44100, ([[1/2, -1/2]] : List (List ℚ)).flatten.map f32ToI16⟩)) :=
  claim_audio_stop_writes_wav AudioCaptureService.init (strL "a.wav")
    [[1/2, -1/2]] rfl (by simp)

/-! ## Pixel adjustment (`_apply_adjustments` and `_record_loop`)

A frame is a rectangle of 8-bit three-channel pixels.  The OpenCV primitives
the pipeline calls (`convertScaleAbs`, `cvtColor` in both directions) are
opaque parameters of the model; the NumPy steps between them — the cast to
float32, the scaling and clipping of the saturation channel, the cast back
to uint8 — are modelled concretely. -/

abbrev Pixel := ℕ × ℕ × ℕ

abbrev Frame := List (List Pixel)

abbrev QPixel := ℚ × ℚ × ℚ

abbrev QFrame := List (List QPixel)

/-- The OpenCV primitives called by the adjustment pipeline:
`cv2.convertScaleAbs(src, alpha, beta)`, `cv2.cvtColor(..., COLOR_BGR2HSV)`
and `cv2.cvtColor(..., COLOR_HSV2BGR)` on 8-bit frames. -/
structure CvPrims where
  convertScaleAbs : Frame → ℚ → ℤ → Frame
  cvtColorBGR2HSV : Frame → Frame
  cvtColorHSV2BGR : Frame → Frame

/-- `.astype("float32")`: 8-bit channel values are represented exactly. -/
def frameToF32 (f : Frame) : QFrame :=
  f.map (List.map fun p => ((p.1 : ℚ), (p.2.1 : ℚ), (p.2.2 : ℚ)))

/-- `.astype("uint8")` of a channel already clipped to [0, 255]. -/
def qToU8 (q : ℚ) : ℕ := (pyTrunc q).toNat

def frameToU8 (f : QFrame) : Frame :=
  f.map (List.map fun p => (qToU8 p.1, qToU8 p.2.1, qToU8 p.2.2))

/-- `hsv[..., 1] *= saturation; hsv[..., 1] = np.clip(hsv[..., 1], 0, 255)`:
the saturation channel is scaled and clipped, hue and value are untouched. -/
def satScaleClip (sat : ℚ) (f : QFrame) : QFrame :=
  f.map (List.map fun p => (p.1, min (max (p.2.1 * sat) 0) 255, p.2.2))

/-- The adjustment block of `_apply_adjustments` (the preview path),
`recorder_manager/recorder_manager.py` lines 81–87. -/
def previewAdjust (cv : CvPrims) (brightness contrast saturation : ℚ)
    (frame : Frame) : Frame :=
  let beta := pyTrunc ((brightness - 1) * 50)
  let adjusted := cv.convertScaleAbs frame contrast beta
  let hsv := frameToF32 (cv.cvtColorBGR2HSV adjusted)
  let hsv1 := satScaleClip saturation hsv
  cv.cvtColorHSV2BGR (frameToU8 hsv1)

/-- The adjustment block of `_record_loop` (the recording path), lines
166–172, transcribed separately from the source. -/
def recordAdjust (cv : CvPrims) (brightness contrast saturation : ℚ)
    (frame : Frame) : Frame :=
  let beta := pyTrunc ((brightness - 1) * 50)
  let adjusted := cv.convertScaleAbs frame contrast beta
  let hsv := frameToF32 (cv.cvtColorBGR2HSV adjusted)
  let hsv1 := satScaleClip saturation hsv
  cv.cvtColorHSV2BGR (frameToU8 hsv1)

/-- Specification-side definition (spec §4.3), for the refinement claim:
stage (1), contrast as a multiplicative scale and brightness as an additive
offset clipped to the 8-bit range, all inside `convertScaleAbs`. -/
def specStage1 (cv : CvPrims) (brightness contrast : ℚ) (frame : Frame) : Frame :=
  cv.convertScaleAbs frame contrast (pyTrunc ((brightness - 1) * 50))

/-- Specification-side definition (spec §4.3), for the refinement claim:
stage (2), convert to HSV, scale the saturation channel, clip, convert back. -/
def specStage2 (cv : CvPrims) (saturation : ℚ) (frame : Frame) : Frame :=
  cv.cvtColorHSV2BGR
    (frameToU8 (satScaleClip saturation (frameToF32 (cv.cvtColorBGR2HSV frame))))

/-- Specification-side definition: the two stages in the spec's fixed order —
first contrast/brightness, then the saturation stage. -/
def specAdjust (cv : CvPrims) (b c s : ℚ) (frame : Frame) : Frame :=
  specStage2 cv s (specStage1 cv b c frame)

/-- C4: for every interpretation of the OpenCV primitives, every adjustment
triple and every frame, the preview-path transform and the recording-path
transform are the same function (byte-identical output on the same input),
and both consist of the spec's stage (1) followed by stage (2) in that fixed
order. -/
theorem claim_adjustment_paths_equal (cv : CvPrims) (b c s : ℚ)
    (frame : Frame) :
    previewAdjust cv b c s frame = recordAdjust cv b c s frame ∧
    previewAdjust cv b c s frame = specAdjust cv b c s frame :=
  ⟨rfl, rfl⟩

/-! ## VideoCaptureService preview shutdown
(`video_capture/video_capture_service.py`)

An interleaving model of the capture loop `_update_loop` (one thread) and
`stop_preview` (another thread).  A step is one atomic action of either
thread; frames delivered by `self._capture.read()` are identified by natural
numbers.  `loopStore` performs the locked write of `_last_frame` together
with the `frames_captured` increment; `loopCallback` is the synchronous
preview-callback invocation. -/

inductive LoopPC where
  | check
  | deliver (f : ℕ)
  | callback (f : ℕ)
  | done
deriving DecidableEq, Repr

inductive MainPC where
  | start
  | flagSet
  | joined
  | returned
deriving DecidableEq, Repr

inductive PEvent where
  | callbackInvoked (f : ℕ)
  | released
deriving DecidableEq, Repr

structure PState where
  previewing : Bool
  captureOpen : Bool
  lastFrame : Option ℕ
  framesCaptured : ℕ
  lpc : LoopPC
  mpc : MainPC
  events : List PEvent
deriving DecidableEq, Repr

/-- One interleaved atomic step of the preview loop thread or of the thread
running `stop_preview`. -/
inductive PStep : PState → PState → Prop where
  | loopExit (σ : PState) (h : σ.lpc = .check)
      (hcond : σ.previewing = false ∨ σ.captureOpen = false) :
      PStep σ { σ with lpc := .done }
  | loopReadOk (σ : PState) (f : ℕ) (h : σ.lpc = .check)
      (hprev : σ.previewing = true) (hopen : σ.captureOpen = true) :
      PStep σ { σ with lpc := .deliver f }
  | loopReadFail (σ : PState) (h : σ.lpc = .check)
      (hprev : σ.previewing = true) (hopen : σ.captureOpen = true) :
      PStep σ σ
  | loopStore (σ : PState) (f : ℕ) (h : σ.lpc = .deliver f) :
      PStep σ { σ with
        lastFrame := some f
        framesCaptured := σ.framesCaptured + 1
        lpc := .callback f }
  | loopCallback (σ : PState) (f : ℕ) (h : σ.lpc = .callback f) :
      PStep σ { σ with events := σ.events ++ [.callbackInvoked f], lpc := .check }
  | mainSetFlag (σ : PState) (h : σ.mpc = .start) :
      PStep σ { σ with previewing := false, mpc := .flagSet }
  | mainJoin (σ : PState) (h : σ.mpc = .flagSet) (hdone : σ.lpc = .done) :
      PStep σ { σ with mpc := .joined }
  | mainRelease (σ : PState) (h : σ.mpc = .joined) :
      PStep σ { σ with
        captureOpen := false
        events := σ.events ++ [.released]
        mpc := .returned }

/-- A running preview at the moment `stop_preview` is entered. -/
def previewInit : PState :=
  { previewing := true, captureOpen := true, lastFrame := none,
    framesCaptured := 0, lpc := .check, mpc := .start, events := [] }

def PReach (σ : PState) : Prop := Relation.ReflTransGen PStep previewInit σ

/-- The inductive invariant of the shutdown protocol: once the flag has been
set the preview flag stays false, the join only completes after the loop has
terminated, and the capture handle is only released after `stop_preview` has
reached its final statement. -/
def PInv (σ : PState) : Prop :=
  (σ.mpc = .flagSet ∨ σ.mpc = .joined ∨ σ.mpc = .returned →
    σ.previewing = false) ∧
  (σ.mpc = .joined ∨ σ.mpc = .returned → σ.lpc = LoopPC.done) ∧
  (σ.captureOpen = false → σ.mpc = .returned)

theorem PInv_init : PInv previewInit := by
  refine ⟨?_, ?_, ?_⟩ <;> intro h <;> simp_all [previewInit]

theorem PInv_step {σ σ' : PState} (hstep : PStep σ σ') (hinv : PInv σ) :
    PInv σ' := by
  obtain ⟨h1, h2, h3⟩ := hinv
  cases hstep with
  | loopExit h hcond =>
      exact ⟨fun hm => h1 hm, fun _ => rfl, fun hc => h3 hc⟩
  | loopReadOk f h hprev hopen =>
      refine ⟨fun hm => h1 hm, fun hm => ?_, fun hc => h3 hc⟩
      have hd := h2 hm
      rw [h] at hd
      simp at hd
  | loopReadFail h hprev hopen =>
      exact ⟨h1, h2, h3⟩
  | loopStore f h =>
      refine ⟨fun hm => h1 hm, fun hm => ?_, fun hc => h3 hc⟩
      have hd := h2 hm
      rw [h] at hd
      simp at hd
  | loopCallback f h =>
      refine ⟨fun hm => h1 hm, fun hm => ?_, fun hc => h3 hc⟩
      have hd := h2 hm
      rw [h] at hd
      simp at hd
  | mainSetFlag h =>
      refine ⟨fun _ => rfl, fun hm => ?_, fun hc => ?_⟩
      · rcases hm with hm | hm <;> simp at hm
      · have := h3 hc
        rw [h] at this
        simp at this
  | mainJoin h hdone =>
      refine ⟨fun _ => h1 (Or.inl h), fun _ => hdone, fun hc => ?_⟩
      have := h3 hc
      rw [h] at this
      simp at this
  | mainRelease h =>
      exact ⟨fun _ => h1 (Or.inr (Or.inl h)), fun _ => h2 (Or.inl h),
        fun _ => rfl⟩

theorem PInv_reach (σ : PState) (h : PReach σ) : PInv σ := by
  induction h with
  | refl => exact PInv_init
  | tail hsteps hstep ih => exact PInv_step hstep ih

/-- Once the loop has terminated and `stop_preview` has returned, no step of
either thread is possible: in particular no callback fires and no latest
frame is stored. -/
theorem no_step_of_done_returned {σ : PState} (hm : σ.mpc = .returned)
    (hl : σ.lpc = LoopPC.done) (σ' : PState) : ¬ PStep σ σ' := by
  intro hstep
  cases hstep <;> simp_all

/-- C7: in every reachable state, (a) once `stop_preview` has returned the
stop flag is false, the capture thread has terminated (it was joined, and the
camera handle is released only afterwards), and no further step — no frame
callback, no latest-frame store — is possible; (b) whenever the camera
handle has been released, the capture thread had already terminated and
`stop_preview` had reached its final statement, i.e. the join happens before
the release. -/
theorem claim_stop_preview_joins_before_release (σ : PState)
    (hreach : PReach σ) :
    (σ.mpc = .returned →
      σ.previewing = false ∧ σ.lpc = LoopPC.done ∧ ∀ σ', ¬ PStep σ σ') ∧
    (σ.captureOpen = false → σ.lpc = LoopPC.done ∧ σ.mpc = .returned) := by
  obtain ⟨h1, h2, h3⟩ := PInv_reach σ hreach
  constructor
  · intro hm
    exact ⟨h1 (Or.inr (Or.inr hm)), h2 (Or.inr hm),
      fun σ' => no_step_of_done_returned hm (h2 (Or.inr hm)) σ'⟩
  · intro hc
    have hm := h3 hc
    exact ⟨h2 (Or.inr hm), hm⟩

/-- The state after the interleaving `stop_preview` begins, the loop observes
the cleared flag and exits, the join completes, and the handle is released. -/
def previewFinal : PState :=
  { previewing := false, captureOpen := false, lastFrame := none,
    framesCaptured := 0, lpc := .done, mpc := .returned,
    events := [PEvent.released] }

theorem claim_stop_preview_joins_before_release_witness :
    (previewFinal.mpc = .returned →
      previewFinal.previewing = false ∧ previewFinal.lpc = LoopPC.done ∧
        ∀ σ', ¬ PStep previewFinal σ') ∧
    (previewFinal.captureOpen = false →
      previewFinal.lpc = LoopPC.done ∧ previewFinal.mpc = .returned) :=
  claim_stop_preview_joins_before_release previewFinal
    (Relation.ReflTransGen.head (PStep.mainSetFlag previewInit rfl)
      (Relation.ReflTransGen.head (PStep.loopExit _ rfl (Or.inl rfl))
        (Relation.ReflTransGen.head (PStep.mainJoin _ rfl rfl)
          (Relation.ReflTransGen.head (PStep.mainRelease _ rfl)
            Relation.ReflTransGen.refl))))

end WebcamRec
